import Mathlib

/-!
Verification of the keyword-monitor pipeline in `src/socials.js`.

Strings are modelled as `List Char`.  The JavaScript regular expression
`new RegExp("\\b" + escaped(kw) + "\\b", "gi")` built in
`findAndHighlightKeywords` (src/socials.js lines 161-172) matches the keyword
literally (all metacharacters are escaped), case-insensitively, with a word
boundary `\b` on both sides.  `\b` holds at a position iff exactly one of the
two surrounding characters is a word character (`[A-Za-z0-9_]`), a position
outside the string counting as a non-word character.
-/

namespace Socials

/-- Word character in the sense of the JavaScript `\w` / `\b` classes:
ASCII letters, digits and underscore. -/
def isWordChar (c : Char) : Bool :=
  c.isAlpha || c.isDigit || c = '_'

/-- Wordness of an optional character; a missing character (outside the
string) counts as non-word, matching how `\b` behaves at the ends. -/
def isWordO : Option Char → Bool
  | none => false
  | some c => isWordChar c

/-- A `\b` word boundary sits between two (optional) characters iff exactly
one of them is a word character. -/
def boundaryBetween (a b : Option Char) : Bool :=
  isWordO a != isWordO b

/-- Case-insensitive character comparison, as performed by the `i` regex flag
on ASCII input (`Char.toLower` lowers exactly the ASCII uppercase letters). -/
def ciEqChar (a b : Char) : Bool :=
  a.toLower == b.toLower

/-- Case-insensitive equality of two character lists (same length,
pointwise `ciEqChar`). -/
def ciEqList : List Char → List Char → Bool
  | [], [] => true
  | a :: as, b :: bs => ciEqChar a b && ciEqList as bs
  | _, _ => false

/-- Does `kw` occur case-insensitively at the very start of `l`? -/
def ciStartsWith : List Char → List Char → Bool
  | [], _ => true
  | _ :: _, [] => false
  | a :: as, b :: bs => ciEqChar a b && ciStartsWith as bs

/-- The character of `text` just before position `i` (none at position 0). -/
def prevCharAt (text : List Char) (i : Nat) : Option Char :=
  if i = 0 then none else text[i - 1]?

/-- Does the escaped pattern `\b kw \b` match at a single position of the
text?  `prev` is the character immediately before the position and `rest` the
text from the position on.  The three conjuncts are: the literal (the
keyword, case-insensitively) and the two `\b` assertions — one between `prev`
and the first character of the match, one between the last character of the
match and the character following it. -/
def wbMatchAt (kw : List Char) (prev : Option Char) (rest : List Char) : Bool :=
  ciStartsWith kw rest &&
  boundaryBetween prev rest.head? &&
  boundaryBetween ((rest.take kw.length).getLast?.or prev) ((rest.drop kw.length).head?)

/-- Model of `regex.test(text)` for the regex `\b escaped(kw) \b` with flags
`gi` (src/socials.js line 165-166): the pattern matches at some position of
the text.  Positions `0 .. text.length` are all candidate match starts. -/
def regexTestWB (kw text : List Char) : Bool :=
  (List.range (text.length + 1)).any fun i =>
    wbMatchAt kw (prevCharAt text i) (text.drop i)

/-- The replacement template `'{bold}$&{/bold}'` of src/socials.js line 168:
the matched substring wrapped in bold markers. -/
def wrapBold (s : List Char) : List Char :=
  "{bold}".toList ++ s ++ "{/bold}".toList

/-- Fuelled scan implementing `highlightedText.replace(regex, '{bold}$&{/bold}')`
with the global regex `\b escaped(kw) \b` (gi): the leftmost match is replaced
first, scanning resumes right after each non-empty match, and after an empty
match (possible only for an empty keyword) the engine advances one character,
as the JavaScript engine does.  The fuel only serves structural recursion;
every step consumes at least one character, so `text.length + 1` fuel is
always enough. -/
def replaceWBAux (kw : List Char) : Nat → Option Char → List Char → List Char
  | 0, _, _ => []
  | _ + 1, prev, [] => if wbMatchAt kw prev [] then wrapBold [] else []
  | fuel + 1, prev, c :: cs =>
    if wbMatchAt kw prev (c :: cs) then
      match kw with
      | [] => wrapBold [] ++ c :: replaceWBAux kw fuel (some c) cs
      | _ :: _ =>
        let m := (c :: cs).take kw.length
        wrapBold m ++ replaceWBAux kw fuel (m.getLast?.or prev) ((c :: cs).drop kw.length)
    else c :: replaceWBAux kw fuel (some c) cs

/-- Global case-insensitive whole-word replace of `kw` by its bold-wrapped
form, as performed on `highlightedText` in src/socials.js line 168. -/
def replaceWB (kw text : List Char) : List Char :=
  replaceWBAux kw (text.length + 1) none text

/-- Result record of `findAndHighlightKeywords`: the keywords found (in order
of discovery, without duplicates, modelling the JS `Set`) and the highlighted
text. -/
structure HighlightResult where
  matchedKeywords : List (List Char)
  highlightedText : List Char
  deriving DecidableEq

/-- One iteration of the `for (const kw of keywords)` loop of
`findAndHighlightKeywords` (src/socials.js lines 164-170): the regex is
tested against the original `text`; on success the keyword is added to the
found set and every match is replaced inside the accumulated highlighted
text. -/
def fahkStep (text : List Char) (acc : HighlightResult) (kw : List Char) : HighlightResult :=
  if regexTestWB kw text then
    { matchedKeywords :=
        if acc.matchedKeywords.contains kw then acc.matchedKeywords
        else acc.matchedKeywords ++ [kw],
      highlightedText := replaceWB kw acc.highlightedText }
  else acc

/-- Model of `findAndHighlightKeywords(text, keywords)`
(src/socials.js lines 161-172). -/
def findAndHighlightKeywords (text : List Char) (keywords : List (List Char)) : HighlightResult :=
  keywords.foldl (fahkStep text) { matchedKeywords := [], highlightedText := text }

/-- Modelled from the spec: a case-insensitive whole-word occurrence of a
keyword in a text, with word-boundary semantics — the text splits as
`pre ++ mid ++ post` where `mid` equals the keyword up to case and a word
boundary separates `pre` from what follows it and `post` from what precedes
it (so the keyword never matches as a substring of a longer word). -/
def wholeWordOccurs (kw text : List Char) : Prop :=
  ∃ pre mid post : List Char,
    text = pre ++ mid ++ post ∧
    ciEqList mid kw = true ∧
    boundaryBetween pre.getLast? ((mid ++ post).head?) = true ∧
    boundaryBetween ((pre ++ mid).getLast?) post.head? = true

/-- A raw item as produced by the source adapters (`fetchRss`,
`scrapeDuckDuckGo`, src/socials.js lines 101-159): source display name,
title, optional link, optional publish timestamp (milliseconds), snippet
text and raw body.  A missing `link` models a feed item without a link;
`some []` models an empty-string link (falsy in JavaScript). -/
structure RawItem where
  source : String
  title : List Char
  link : Option (List Char)
  date : Option Int
  snippet : List Char
  rawContent : List Char
  deriving DecidableEq

/-- Truthiness of `item.link` in JavaScript: present and non-empty. -/
def linkTruthy : Option (List Char) → Bool
  | none => false
  | some l => !l.isEmpty

/-- Scan of `allResultsRaw` filling the `uniqueResults` map
(src/socials.js lines 226-227): an item is kept iff its link is truthy and
no earlier kept item had the same link; `seen` is the set of links already
in the map. -/
def dedupAux (seen : List (List Char)) : List RawItem → List RawItem
  | [] => []
  | it :: rest =>
    match it.link with
    | some l =>
      if !l.isEmpty && !seen.contains l then it :: dedupAux (l :: seen) rest
      else dedupAux seen rest
    | none => dedupAux seen rest

/-- The deduplicated item list, in first-occurrence order (the iteration
order of `uniqueResults.values()`). -/
def dedup (items : List RawItem) : List RawItem :=
  dedupAux [] items

/-- A matched item as pushed onto `finalResults`
(src/socials.js lines 233-242). -/
structure MatchedResult where
  item : RawItem
  matchedKeywords : List (List Char)
  highlightedSnippet : List Char
  deriving DecidableEq

/-- The matching stage of `fetchAllData` (src/socials.js lines 233-242):
each deduplicated item is scanned as `title + ' ' + snippet` against the
full keyword union; items with no matched keyword are dropped, the others
carry the matched keywords and the highlighted text with its first
`title.length + 1` characters removed. -/
def matchStage (items : List RawItem) (allKeywords : List (List Char)) : List MatchedResult :=
  items.filterMap fun it =>
    let r := findAndHighlightKeywords (it.title ++ [' '] ++ it.snippet) allKeywords
    if 0 < r.matchedKeywords.length then
      some { item := it, matchedKeywords := r.matchedKeywords,
             highlightedSnippet := r.highlightedText.drop (it.title.length + 1) }
    else none

/-- The three per-source buckets of `limitedResults`
(src/socials.js lines 244-246), in the insertion order of `sourceKeyMap`. -/
structure Groups where
  reddit : List MatchedResult
  hn : List MatchedResult
  ddg : List MatchedResult
  deriving DecidableEq

/-- One step of the `for (const res of finalResults)` loop
(src/socials.js line 246): the result is appended to its source's bucket;
results for a source that has no bucket are dropped. -/
def pushRes (g : Groups) (r : MatchedResult) : Groups :=
  if r.item.source = "Reddit" then { g with reddit := g.reddit ++ [r] }
  else if r.item.source = "Hacker News" then { g with hn := g.hn ++ [r] }
  else if r.item.source = "DuckDuckGo" then { g with ddg := g.ddg ++ [r] }
  else g

/-- `state.limits[key] ?? state.globalResultLimit`
(src/socials.js line 251): the per-source override when one is set, else the
global limit.  `limits` is the `state.limits` object as an association
list keyed by `reddit` / `hn` / `ddg`. -/
def effLimit (limits : List (String × Nat)) (global : Nat) (key : String) : Nat :=
  match (limits.find? fun p => p.1 == key).map Prod.snd with
  | some n => n
  | none => global

/-- Sort of `displayResults` (src/socials.js line 255): stable sort by
`(b.item.date || 0) - (a.item.date || 0)`, i.e. descending by publish
timestamp with a missing date counting as 0. -/
def sortByDateDesc (rs : List MatchedResult) : List MatchedResult :=
  rs.mergeSort fun a b => decide (b.item.date.getD 0 ≤ a.item.date.getD 0)

/-- The limit-and-rank tail of `fetchAllData` (src/socials.js lines
244-255): bucket the matched results by source, truncate each bucket to its
effective limit, concatenate the buckets in the fixed `Reddit`,
`Hacker News`, `DuckDuckGo` order, then sort by date descending. -/
def displayPipeline (finalResults : List MatchedResult) (limits : List (String × Nat))
    (global : Nat) : List MatchedResult :=
  let g := finalResults.foldl pushRes ⟨[], [], []⟩
  sortByDateDesc
    (g.reddit.take (effLimit limits global "reddit") ++
     g.hn.take (effLimit limits global "hn") ++
     g.ddg.take (effLimit limits global "ddg"))

/-- Modelled from the spec: group the matched items by source (the fixed
source set), truncate each group to its effective limit keeping the head of
the group's arrival order, concatenate the groups, then sort the
concatenation by publish timestamp descending with items lacking a
timestamp treated as epoch/zero. -/
def specDisplayPipeline (rs : List MatchedResult) (limits : List (String × Nat))
    (global : Nat) : List MatchedResult :=
  sortByDateDesc
    (([("Reddit", "reddit"), ("Hacker News", "hn"), ("DuckDuckGo", "ddg")].map fun p =>
        (rs.filter fun r => r.item.source == p.1).take (effLimit limits global p.2)).flatten)

/-- Settling of one adapter call: both `fetchRss` (src/socials.js lines
112-115) and `scrapeDuckDuckGo` (lines 155-158) catch any failure, report it
on the output log, and return `[]`, so a task never rejects. -/
def settleTask : Except String (List RawItem) → List RawItem
  | .ok xs => xs
  | .error _ => []

/-- One fetch cycle from settled task outcomes (src/socials.js lines
206-261, minus the empty-keyword short-circuit): flatten all task results
(`(await Promise.all(allFetchTasks)).flat()`), dedup, match against the full
keyword union, limit per source and rank. -/
def runCycle (tasks : List (Except String (List RawItem)))
    (allKeywords : List (List Char)) (limits : List (String × Nat))
    (global : Nat) : List MatchedResult :=
  displayPipeline (matchStage (dedup ((tasks.map settleTask).flatten)) allKeywords)
    limits global

/-- The fixed source key set of the command interpreter
(src/socials.js line 292). -/
def sources : List String := ["reddit", "hn", "ddg"]

/-- The three per-source keyword sets of `state.keywords`
(src/socials.js line 38), modelled as insertion-ordered duplicate-free
lists (JavaScript `Set`s). -/
structure Keywords where
  reddit : List String
  hn : List String
  ddg : List String
  deriving DecidableEq

/-- `Set.prototype.add`: append iff not already present. -/
def setAdd (l : List String) (kw : String) : List String :=
  if l.contains kw then l else l ++ [kw]

/-- `Set.prototype.delete`: remove the element, keeping the others in
order. -/
def setDelete (l : List String) (kw : String) : List String :=
  l.filter fun x => x != kw

/-- `state.keywords[s].add(kw)` / `state.keywords[s].delete(kw)`
(src/socials.js line 298); `s` is always one of the three source keys. -/
def applyKw (isAdd : Bool) (k : Keywords) (s : String) (kw : String) : Keywords :=
  if s = "reddit" then
    { k with reddit := if isAdd then setAdd k.reddit kw else setDelete k.reddit kw }
  else if s = "hn" then
    { k with hn := if isAdd then setAdd k.hn kw else setDelete k.hn kw }
  else if s = "ddg" then
    { k with ddg := if isAdd then setAdd k.ddg kw else setDelete k.ddg kw }
  else k

/-- Outcome of a `+`/`-` command: the new keyword sets, the `stateChanged`
flag, and whether any error message was printed on the way. -/
structure CmdOutcome where
  keywords : Keywords
  stateChanged : Bool
  errorSurfaced : Bool
  deriving DecidableEq

/-- The `+`/`-` branch of `handleCommand` (src/socials.js lines 295-301):
`sourceMatch` is the action token minus its first character; the target
sources are `[sourceMatch]` when it is a known source key and all sources
otherwise; every argument is added to / removed from every target source;
`stateChanged` is set unconditionally and no error is ever surfaced. -/
def handleAddRemove (isAdd : Bool) (sourceMatch : String) (args : List String)
    (k : Keywords) : CmdOutcome :=
  let targetSources := if sources.contains sourceMatch then [sourceMatch] else sources
  { keywords :=
      args.foldl (fun acc kw => targetSources.foldl (fun a s => applyKw isAdd a s kw) acc) k,
    stateChanged := true,
    errorSurfaced := false }

/-- Line 375 of src/socials.js: `if (stateChanged) await autosaveState()` —
the autosave fires exactly when the command set the `stateChanged` flag. -/
def triggersAutosave (o : CmdOutcome) : Bool := o.stateChanged

/-- The persistable part of the application state (src/socials.js lines
37-42): keyword sets, per-source limit overrides, global result limit and
fetch interval. -/
structure Config where
  keywords : Keywords
  limits : List (String × Nat)
  globalResultLimit : Nat
  fetchIntervalMinutes : Nat
  deriving DecidableEq

/-- The keyword arrays of a parsed settings file; each may be missing. -/
structure SavedKeywords where
  reddit : Option (List String)
  hn : Option (List String)
  ddg : Option (List String)
  deriving DecidableEq

/-- A parsed settings file (the result of `JSON.parse`): any of the four
top-level fields may be missing. -/
structure SavedState where
  keywords : Option SavedKeywords
  limits : Option (List (String × Nat))
  globalResultLimit : Option Nat
  fetchIntervalMinutes : Option Nat
  deriving DecidableEq

/-- `saveState` (src/socials.js lines 47-65): serialize the current state;
the keyword `Set`s are spread into arrays (`[...state.keywords.reddit]`),
every field is present in the output. -/
def saveState (c : Config) : SavedState :=
  { keywords := some ⟨some c.keywords.reddit, some c.keywords.hn, some c.keywords.ddg⟩,
    limits := some c.limits,
    globalResultLimit := some c.globalResultLimit,
    fetchIntervalMinutes := some c.fetchIntervalMinutes }

/-- `new Set(array)`: collapse duplicates keeping first occurrences. -/
def mkSet (l : List String) : List String :=
  l.foldl setAdd []

/-- `applyState` (src/socials.js lines 71-83): reject the data (throw)
unless `keywords`, `limits` and `fetchIntervalMinutes` are all present —
the check happens before any field of the in-memory state is written; then
replace the whole configuration.  A missing per-source keyword array
defaults to `[]`; `globalResultLimit` is taken as
`loadedData.globalResultLimit || 10`, so a missing or zero saved value
becomes 10. -/
def applyState (d : SavedState) (_c : Config) : Except String Config :=
  match d.keywords, d.limits, d.fetchIntervalMinutes with
  | some kws, some lims, some interval =>
    .ok { keywords := ⟨mkSet (kws.reddit.getD []), mkSet (kws.hn.getD []),
                       mkSet (kws.ddg.getD [])⟩,
          limits := lims,
          globalResultLimit :=
            match d.globalResultLimit with
            | some n => if n = 0 then 10 else n
            | none => 10,
          fetchIntervalMinutes := interval }
  | _, _, _ => .error "Invalid or corrupt settings file."

/-- The `applyState` call inside `loadState` (src/socials.js lines 85-98)
for a file that exists and parses: on success the returned configuration
replaces the old one, on a thrown error the message is logged in red
(surfaced, second component `true`) and the old configuration is kept. -/
def loadStateParsed (d : SavedState) (c : Config) : Config × Bool :=
  match applyState d c with
  | .ok c' => (c', false)
  | .error _ => (c, true)

/-! Lemmas about the case-insensitive whole-word matcher. -/

theorem ciEqChar_comm (a b : Char) : ciEqChar a b = ciEqChar b a := by
  unfold ciEqChar
  by_cases h : a.toLower = b.toLower
  · rw [h]
  · have h' : ¬ b.toLower = a.toLower := fun e => h e.symm
    rw [Bool.eq_iff_iff]
    simp [h, h']

theorem ciEqList_length : ∀ {a b : List Char}, ciEqList a b = true → a.length = b.length
  | [], [], _ => rfl
  | [], _ :: _, h => by simp [ciEqList] at h
  | _ :: _, [], h => by simp [ciEqList] at h
  | _ :: _, _ :: _, h => by
    rw [ciEqList, Bool.and_eq_true] at h
    simp [ciEqList_length h.2]

theorem ciStartsWith_iff_take : ∀ (kw l : List Char),
    ciStartsWith kw l = true ↔ ciEqList (l.take kw.length) kw = true
  | [], l => by simp [ciStartsWith, ciEqList]
  | _ :: _, [] => by simp [ciStartsWith, ciEqList]
  | a :: as, b :: bs => by
    rw [ciStartsWith, List.length_cons, List.take_succ_cons, ciEqList,
      Bool.and_eq_true, Bool.and_eq_true, ciStartsWith_iff_take as bs, ciEqChar_comm a b]

theorem getLastOpt_take (text : List Char) (i : Nat) (h : i ≤ text.length) :
    (text.take i).getLast? = prevCharAt text i := by
  unfold prevCharAt
  rcases i with _ | j
  · simp
  · rw [if_neg (Nat.succ_ne_zero j), List.getLast?_eq_getElem?, List.length_take,
      Nat.min_eq_left h, List.getElem?_take]
    simp

theorem prevCharAt_append (pre x : List Char) :
    prevCharAt (pre ++ x) pre.length = pre.getLast? := by
  rw [← getLastOpt_take (pre ++ x) pre.length (by simp), List.take_left]

/-- The position-based regex-test model agrees with the spec's notion of a
case-insensitive whole-word occurrence. -/
theorem regexTestWB_iff (kw text : List Char) :
    regexTestWB kw text = true ↔ wholeWordOccurs kw text := by
  unfold regexTestWB wholeWordOccurs
  rw [List.any_eq_true]
  constructor
  · rintro ⟨i, hmem, hmatch⟩
    have hi : i ≤ text.length := by
      have := List.mem_range.mp hmem
      omega
    rw [wbMatchAt, Bool.and_eq_true, Bool.and_eq_true] at hmatch
    obtain ⟨⟨h1, h2⟩, h3⟩ := hmatch
    refine ⟨text.take i, (text.drop i).take kw.length, (text.drop i).drop kw.length,
      ?_, ?_, ?_, ?_⟩
    · rw [List.append_assoc, List.take_append_drop, List.take_append_drop]
    · exact (ciStartsWith_iff_take kw (text.drop i)).mp h1
    · rw [List.take_append_drop, getLastOpt_take text i hi]
      exact h2
    · rw [List.getLast?_append, getLastOpt_take text i hi]
      exact h3
  · rintro ⟨pre, mid, post, hsplit, hci, hb1, hb2⟩
    subst hsplit
    rw [List.append_assoc]
    have hdrop : (pre ++ (mid ++ post)).drop pre.length = mid ++ post :=
      List.drop_left pre (mid ++ post)
    have hlen : mid.length = kw.length := ciEqList_length hci
    have htake : (mid ++ post).take kw.length = mid := by
      rw [← hlen]; exact List.take_left mid post
    have hdrop2 : (mid ++ post).drop kw.length = post := by
      rw [← hlen]; exact List.drop_left mid post
    refine ⟨pre.length, List.mem_range.mpr (by simp; omega), ?_⟩
    rw [wbMatchAt, Bool.and_eq_true, Bool.and_eq_true]
    refine ⟨⟨?_, ?_⟩, ?_⟩
    · rw [hdrop, ciStartsWith_iff_take, htake]
      exact hci
    · rw [hdrop, prevCharAt_append]
      exact hb1
    · rw [hdrop, htake, hdrop2, prevCharAt_append, ← List.getLast?_append]
      exact hb2

/-- Membership in the found-keyword set accumulated by the
`findAndHighlightKeywords` loop. -/
theorem mem_fahk_foldl (text : List Char) :
    ∀ (ks : List (List Char)) (acc : HighlightResult) (kw : List Char),
      kw ∈ (ks.foldl (fahkStep text) acc).matchedKeywords ↔
        kw ∈ acc.matchedKeywords ∨ (kw ∈ ks ∧ regexTestWB kw text = true)
  | [], acc, kw => by simp
  | k :: ks, acc, kw => by
    rw [List.foldl_cons, mem_fahk_foldl text ks (fahkStep text acc k) kw]
    unfold fahkStep
    by_cases ht : regexTestWB k text
    · rw [if_pos ht]
      by_cases hc : acc.matchedKeywords.contains k
      · have hk : k ∈ acc.matchedKeywords := by simpa using hc
        rw [if_pos hc]
        constructor
        · rintro (h | ⟨h1, h2⟩)
          · exact Or.inl h
          · exact Or.inr ⟨List.mem_cons_of_mem _ h1, h2⟩
        · rintro (h | ⟨h1, h2⟩)
          · exact Or.inl h
          · rcases List.mem_cons.mp h1 with rfl | h1
            · exact Or.inl hk
            · exact Or.inr ⟨h1, h2⟩
      · rw [if_neg hc]
        constructor
        · rintro (h | ⟨h1, h2⟩)
          · rcases List.mem_append.mp h with h | h
            · exact Or.inl h
            · rcases List.mem_singleton.mp h with rfl
              exact Or.inr ⟨List.mem_cons_self _ _, ht⟩
          · exact Or.inr ⟨List.mem_cons_of_mem _ h1, h2⟩
        · rintro (h | ⟨h1, h2⟩)
          · exact Or.inl (List.mem_append_left _ h)
          · rcases List.mem_cons.mp h1 with rfl | h1
            · exact Or.inl (List.mem_append_right _ (List.mem_singleton.mpr rfl))
            · exact Or.inr ⟨h1, h2⟩
    · rw [if_neg ht]
      constructor
      · rintro (h | ⟨h1, h2⟩)
        · exact Or.inl h
        · exact Or.inr ⟨List.mem_cons_of_mem _ h1, h2⟩
      · rintro (h | ⟨h1, h2⟩)
        · exact Or.inl h
        · rcases List.mem_cons.mp h1 with rfl | h1
          · exact absurd h2 ht
          · exact Or.inr ⟨h1, h2⟩

/-- C2: for every deduplicated item and every keyword of the full keyword
union, the keyword is recorded as matched iff it occurs in
`title + " " + snippetText` as a case-insensitive whole-word occurrence
(word-boundary semantics, never as a substring of a longer word); in
particular "Raspberry Pi 5 is great" matches the keyword "pi" while "piano"
does not. -/
theorem matched_iff_wholeWord :
    (∀ (it : RawItem) (kw : List Char) (kws : List (List Char)), kw ∈ kws →
      (kw ∈ (findAndHighlightKeywords (it.title ++ [' '] ++ it.snippet) kws).matchedKeywords ↔
        wholeWordOccurs kw (it.title ++ [' '] ++ it.snippet))) ∧
    "pi".toList ∈
      (findAndHighlightKeywords "Raspberry Pi 5 is great".toList ["pi".toList]).matchedKeywords ∧
    "pi".toList ∉
      (findAndHighlightKeywords "piano".toList ["pi".toList]).matchedKeywords := by
  refine ⟨?_, by decide, by decide⟩
  intro it kw kws hkw
  rw [findAndHighlightKeywords, mem_fahk_foldl]
  simp [hkw, regexTestWB_iff]

/-- Witness for C2: instantiating the theorem on the item whose scanned text
is "Raspberry Pi 5 is great" yields the whole-word occurrence of "pi". -/
theorem matched_iff_wholeWord_witness :
    wholeWordOccurs "pi".toList ("Raspberry Pi 5".toList ++ [' '] ++ "is great".toList) :=
  (matched_iff_wholeWord.1 ⟨"Hacker News", "Raspberry Pi 5".toList, none, none, "is great".toList, []⟩
    "pi".toList ["pi".toList] (List.mem_singleton.mpr rfl)).mp (by decide)

/-! Lemmas about the dedup step. -/

theorem mem_dedupAux_linkTruthy :
    ∀ (seen : List (List Char)) (items : List RawItem) (it : RawItem),
      it ∈ dedupAux seen items → linkTruthy it.link = true
  | _, [], _, h => by simp [dedupAux] at h
  | seen, x :: rest, it, h => by
    unfold dedupAux at h
    cases hx : x.link with
    | none =>
      rw [hx] at h
      exact mem_dedupAux_linkTruthy seen rest it h
    | some l =>
      rw [hx] at h
      dsimp only at h
      by_cases hc : (!l.isEmpty && !seen.contains l) = true
      · rw [if_pos hc] at h
        rcases List.mem_cons.mp h with rfl | h
        · rw [hx, linkTruthy]
          rw [Bool.and_eq_true] at hc
          exact hc.1
        · exact mem_dedupAux_linkTruthy (l :: seen) rest it h
      · rw [if_neg hc] at h
        exact mem_dedupAux_linkTruthy seen rest it h

/-- C1 (amended): an item whose link is absent is dropped by the dedup step —
it is never merged with any other item, but it also never reaches the
matching stage. -/
theorem dedup_discards_linkless (items : List RawItem) (it : RawItem) (h : it.link = none) :
    it ∉ dedup items := by
  intro hmem
  have ht := mem_dedupAux_linkTruthy [] items it hmem
  rw [h] at ht
  exact Bool.false_ne_true ht

/-- Witness for C1's amended theorem at a concrete linkless item. -/
theorem dedup_discards_linkless_witness :
    (⟨"Hacker News", "Pi".toList, none, some 5, "day".toList, []⟩ : RawItem) ∉
      dedup [⟨"Hacker News", "Pi".toList, none, some 5, "day".toList, []⟩] :=
  dedup_discards_linkless _ _ rfl

/-- Counterexample to C1 as stated: a linkless item that would match the
tracked keyword "pi" is discarded by the dedup step and never reaches the
matching stage, while the same item fed directly to the matching stage does
produce a match. -/
theorem dedup_linkless_cex :
    matchStage
        (dedup [(⟨"Hacker News", "Pi".toList, none, some 5, "day".toList, []⟩ : RawItem)])
        ["pi".toList] = [] ∧
    matchStage [(⟨"Hacker News", "Pi".toList, none, some 5, "day".toList, []⟩ : RawItem)]
        ["pi".toList] ≠ [] :=
  ⟨by decide, by decide⟩

/-- C10: every matched item's `highlightedSnippet` equals the bold-highlighted
form of the full scanned text `title + " " + snippet` with its first
`title.length + 1` characters removed; on the concrete item with title
"Pi day" and snippet "fun" and keyword "pi", the bold markers inserted
before the cut point shift the offset, so the stored snippet is
"i{/bold} day fun" — leftover title text and markup — rather than the
highlighted snippet text alone. -/
theorem highlightedSnippet_drop :
    (∀ (items : List RawItem) (kws : List (List Char)) (r : MatchedResult),
        r ∈ matchStage items kws →
        r.highlightedSnippet =
          (findAndHighlightKeywords (r.item.title ++ [' '] ++ r.item.snippet)
            kws).highlightedText.drop (r.item.title.length + 1)) ∧
    (matchStage [⟨"Hacker News", "Pi day".toList, some "x".toList, none, "fun".toList, []⟩]
        ["pi".toList]).map (fun r => r.highlightedSnippet) = ["i{/bold} day fun".toList] := by
  constructor
  · intro items kws r hr
    rw [matchStage] at hr
    rcases List.mem_filterMap.mp hr with ⟨it, -, hit⟩
    dsimp only at hit
    by_cases hpos :
        0 < (findAndHighlightKeywords (it.title ++ [' '] ++ it.snippet) kws).matchedKeywords.length
    · rw [if_pos hpos] at hit
      cases hit
      rfl
    · rw [if_neg hpos] at hit
      exact absurd hit (by simp)
  · decide

/-- Witness for C10 at the concrete item with a keyword match inside the
title. -/
theorem highlightedSnippet_drop_witness :
    ({ item := ⟨"Hacker News", "Pi day".toList, some "x".toList, none, "fun".toList, []⟩,
       matchedKeywords := ["pi".toList],
       highlightedSnippet := "i{/bold} day fun".toList } : MatchedResult).highlightedSnippet =
      (findAndHighlightKeywords
        (("Pi day".toList : List Char) ++ [' '] ++ "fun".toList)
        ["pi".toList]).highlightedText.drop ("Pi day".toList.length + 1) :=
  highlightedSnippet_drop.1
    [⟨"Hacker News", "Pi day".toList, some "x".toList, none, "fun".toList, []⟩]
    ["pi".toList] _ (by decide)

/-- The bucket-filling loop of `fetchAllData` computes, for each source, the
sub-list of matched results with that source, in arrival order. -/
theorem groups_foldl : ∀ (l : List MatchedResult) (g : Groups),
    l.foldl pushRes g =
      ⟨g.reddit ++ l.filter (fun r => r.item.source == "Reddit"),
       g.hn ++ l.filter (fun r => r.item.source == "Hacker News"),
       g.ddg ++ l.filter (fun r => r.item.source == "DuckDuckGo")⟩
  | [], g => by simp
  | r :: l, g => by
    rw [List.foldl_cons, groups_foldl l (pushRes g r)]
    unfold pushRes
    by_cases h1 : r.item.source = "Reddit"
    · simp [h1, List.filter_cons]
    · by_cases h2 : r.item.source = "Hacker News"
      · simp [h1, h2, List.filter_cons]
      · by_cases h3 : r.item.source = "DuckDuckGo"
        · simp [h1, h2, h3, List.filter_cons]
        · simp [h1, h2, h3, List.filter_cons]

/-- C3: the final displayed list equals the spec's description — group the
matched items by source, truncate each group to its effective limit (the
per-source override when set, else the global limit) keeping the head of the
group's arrival order, concatenate the groups, then sort by publish
timestamp descending with a missing timestamp treated as zero; truncation
happens before sorting. -/
theorem display_equals_spec (finalResults : List MatchedResult)
    (limits : List (String × Nat)) (global : Nat) :
    displayPipeline finalResults limits global = specDisplayPipeline finalResults limits global := by
  unfold displayPipeline specDisplayPipeline
  rw [groups_foldl]
  simp [List.append_assoc]

/-- Does a settled task outcome record a failure? -/
def isFailureTask : Except String (List RawItem) → Bool
  | .error _ => true
  | .ok _ => false

/-- C4: a cycle in which at least one adapter call failed completes with
exactly the result it would have produced had each failed call returned an
empty item list — the matched items of all successful calls are kept and no
failure escapes. -/
theorem runCycle_partialFailure (tasks : List (Except String (List RawItem)))
    (allKeywords : List (List Char)) (limits : List (String × Nat)) (global : Nat)
    (h : ∃ t ∈ tasks, isFailureTask t = true) :
    runCycle tasks allKeywords limits global =
      runCycle (tasks.map fun t => Except.ok (settleTask t)) allKeywords limits global := by
  have hmap : (tasks.map fun t => Except.ok (settleTask t)).map settleTask
      = tasks.map settleTask := by
    rw [List.map_map]
    rfl
  unfold runCycle
  rw [hmap]

/-- Witness for C4: a cycle with one failing task and one successful task
returning a matching item. -/
theorem runCycle_partialFailure_witness :
    runCycle
        [Except.error "network",
         Except.ok [⟨"Hacker News", "Pi".toList, some "L".toList, some 5, "day".toList, []⟩]]
        ["pi".toList] [] 10 =
      runCycle
        (([Except.error "network",
           Except.ok [⟨"Hacker News", "Pi".toList, some "L".toList, some 5, "day".toList, []⟩]] :
            List (Except String (List RawItem))).map fun t => Except.ok (settleTask t))
        ["pi".toList] [] 10 :=
  runCycle_partialFailure _ _ _ _ ⟨Except.error "network", by simp, rfl⟩

/-! Lemmas about the keyword-set operations. -/

theorem mem_setAdd (l : List String) (kw : String) : kw ∈ setAdd l kw := by
  unfold setAdd
  by_cases hc : l.contains kw
  · rw [if_pos hc]
    simpa using hc
  · rw [if_neg hc]
    simp

theorem setDelete_setAdd {l : List String} {kw : String} (h : kw ∉ l) :
    setDelete (setAdd l kw) kw = l := by
  unfold setAdd setDelete
  rw [if_neg (by simpa using h), List.filter_append]
  have h1 : l.filter (fun x => x != kw) = l :=
    List.filter_eq_self.mpr fun a ha => by
      simp only [bne_iff_ne, ne_eq, decide_eq_true_eq]
      exact fun e => h (e ▸ ha)
  have h2 : [kw].filter (fun x => x != kw) = [] := by simp
  rw [h1, h2, List.append_nil]

theorem mkSet_of_nodup : ∀ (l acc : List String), (acc ++ l).Nodup → l.foldl setAdd acc = acc ++ l
  | [], _, _ => by simp
  | x :: xs, acc, h => by
    rw [List.append_cons] at h
    have hx : x ∉ acc := fun hmem =>
      ((List.nodup_append.mp h.of_append_left).2.2 hmem) (List.mem_singleton.mpr rfl)
    have hadd : setAdd acc x = acc ++ [x] := by
      unfold setAdd
      rw [if_neg (by simpa using hx)]
    rw [List.foldl_cons, hadd, mkSet_of_nodup xs (acc ++ [x]) h, ← List.append_cons]

theorem mkSet_eq_self {l : List String} (h : l.Nodup) : mkSet l = l := by
  have := mkSet_of_nodup l [] (by simpa using h)
  simpa [mkSet] using this

/-- C5 (amended): saving a configuration and loading the result reproduces
the keyword sets, the per-source limits, the global limit and the interval
exactly, provided the global limit is non-zero (a zero global limit is
loaded back as the default 10). -/
theorem saveLoad_roundtrip (c c0 : Config)
    (hr : c.keywords.reddit.Nodup) (hh : c.keywords.hn.Nodup) (hd : c.keywords.ddg.Nodup)
    (hg : c.globalResultLimit ≠ 0) :
    applyState (saveState c) c0 = Except.ok c := by
  obtain ⟨⟨kr, kh, kd⟩, lims, g, iv⟩ := c
  simp only [saveState, applyState, Option.getD_some]
  rw [mkSet_eq_self hr, mkSet_eq_self hh, mkSet_eq_self hd, if_neg hg]

/-- Witness for C5's amended theorem on a concrete configuration. -/
theorem saveLoad_roundtrip_witness :
    applyState (saveState ⟨⟨["a"], [], ["b"]⟩, [("hn", 2)], 7, 5⟩) ⟨⟨[], [], []⟩, [], 10, 5⟩ =
      Except.ok (⟨⟨["a"], [], ["b"]⟩, [("hn", 2)], 7, 5⟩ : Config) :=
  saveLoad_roundtrip _ _ (by decide) (by decide) (by decide) (by decide)

/-- Counterexample to C5 as stated: a configuration whose global limit is 0
(which `set list 0` accepts) does not survive the round trip — it loads back
with global limit 10, because `applyState` reads it as
`loadedData.globalResultLimit || 10`. -/
theorem saveLoad_zero_global_cex :
    applyState (saveState (⟨⟨[], [], []⟩, [], 0, 5⟩ : Config)) ⟨⟨[], [], []⟩, [], 0, 5⟩ ≠
      Except.ok (⟨⟨[], [], []⟩, [], 0, 5⟩ : Config) ∧
    applyState (saveState (⟨⟨[], [], []⟩, [], 0, 5⟩ : Config)) ⟨⟨[], [], []⟩, [], 0, 5⟩ =
      Except.ok (⟨⟨[], [], []⟩, [], 10, 5⟩ : Config) := by
  constructor
  · intro h
    have h2 : applyState (saveState (⟨⟨[], [], []⟩, [], 0, 5⟩ : Config)) ⟨⟨[], [], []⟩, [], 0, 5⟩ =
        Except.ok (⟨⟨[], [], []⟩, [], 10, 5⟩ : Config) := rfl
    rw [h2] at h
    exact absurd (Except.ok.inj h) (by decide)
  · rfl

/-- C6: loading a parsed settings file that misses the keyword sets, the
limits map or the `fetchIntervalMinutes` field surfaces the
malformed-configuration error and leaves the whole in-memory configuration
unchanged — the validation throws before any field is written. -/
theorem load_malformed_preserves (d : SavedState) (c : Config)
    (h : d.keywords = none ∨ d.limits = none ∨ d.fetchIntervalMinutes = none) :
    loadStateParsed d c = (c, true) := by
  cases hk : d.keywords <;> cases hl : d.limits <;> cases hi : d.fetchIntervalMinutes <;>
    simp_all [loadStateParsed, applyState]

/-- Witness for C6: the spec's scenario — a file with everything but the
`fetchIntervalMinutes` field — leaves the prior configuration untouched and
surfaces the error. -/
theorem load_malformed_preserves_witness :
    loadStateParsed ⟨some ⟨some [], some [], some []⟩, some [], some 10, none⟩
        ⟨⟨["k"], [], []⟩, [("reddit", 1)], 3, 9⟩ =
      (⟨⟨["k"], [], []⟩, [("reddit", 1)], 3, 9⟩, true) :=
  load_malformed_preserves _ _ (Or.inr (Or.inr rfl))

/-- Counterexample to C7 as stated: if the keyword is already tracked,
adding it is a no-op but removing it deletes it, so add-then-remove does not
restore the original set. -/
theorem addRemove_roundtrip_cex :
    (handleAddRemove false "reddit" ["x"]
        (handleAddRemove true "reddit" ["x"] ⟨["x"], [], []⟩).keywords).keywords ≠
      (⟨["x"], [], []⟩ : Keywords) := by decide

/-- C7 (amended): for every keyword and source scope, add-then-remove
restores the keyword sets exactly, provided the keyword was not already
present beforehand; when it was, the pair of commands removes it. -/
theorem addRemove_roundtrip (k : Keywords) (sourceMatch kw : String)
    (h1 : kw ∉ k.reddit) (h2 : kw ∉ k.hn) (h3 : kw ∉ k.ddg) :
    (handleAddRemove false sourceMatch [kw]
        (handleAddRemove true sourceMatch [kw] k).keywords).keywords = k := by
  obtain ⟨kr, kh, kd⟩ := k
  unfold handleAddRemove
  by_cases hs : sources.contains sourceMatch
  · have hmem : sourceMatch ∈ sources := by simpa using hs
    simp only [sources, List.mem_cons, List.mem_singleton, List.not_mem_nil, or_false] at hmem
    rcases hmem with rfl | rfl | rfl <;>
      simp_all [applyKw, setDelete_setAdd]
  · simp_all [sources, applyKw, setDelete_setAdd]

/-- Witness for C7's amended theorem. -/
theorem addRemove_roundtrip_witness :
    (handleAddRemove false "reddit" ["x"]
        (handleAddRemove true "reddit" ["x"] ⟨[], ["y"], []⟩).keywords).keywords =
      (⟨[], ["y"], []⟩ : Keywords) :=
  addRemove_roundtrip _ _ _ (by decide) (by decide) (by decide)

/-- Counterexample to C8 as stated: the add command `+foo "kw"` with the
unknown source `foo` mutates the state (the keyword lands in every source's
set), triggers the autosave, and surfaces no error. -/
theorem unknownSource_add_cex :
    (handleAddRemove true "foo" ["kw"] ⟨[], [], []⟩).keywords ≠ (⟨[], [], []⟩ : Keywords) ∧
    (handleAddRemove true "foo" ["kw"] ⟨[], [], []⟩).errorSurfaced = false ∧
    triggersAutosave (handleAddRemove true "foo" ["kw"] ⟨[], [], []⟩) = true :=
  ⟨by decide, rfl, rfl⟩

/-- C8 (amended): an add/remove command naming an unknown source silently
falls back to all sources — the arguments are applied to every source's
set, `stateChanged` is set (so the autosave fires), and no error is
surfaced. -/
theorem unknownSource_fallback (isAdd : Bool) (sourceMatch : String) (args : List String)
    (k : Keywords) (h : sources.contains sourceMatch = false) :
    handleAddRemove isAdd sourceMatch args k =
      { keywords :=
          args.foldl (fun acc kw => sources.foldl (fun a s => applyKw isAdd a s kw) acc) k,
        stateChanged := true, errorSurfaced := false } := by
  unfold handleAddRemove
  rw [h]
  simp

/-- Witness for C8's amended theorem at the unknown source `foo`. -/
theorem unknownSource_fallback_witness :
    handleAddRemove true "foo" ["kw"] ⟨[], [], []⟩ =
      { keywords :=
          (["kw"].foldl (fun acc kw => sources.foldl (fun a s => applyKw true a s kw) acc)
            ⟨[], [], []⟩ : Keywords),
        stateChanged := true, errorSurfaced := false } :=
  unknownSource_fallback true "foo" ["kw"] ⟨[], [], []⟩ (by decide)

/-- Counterexample to C9 as stated: adding the empty keyword (empty after
trimming) is not a no-op — the command `+ ""` inserts the empty string into
the reddit keyword set (and the other sets alike). -/
theorem emptyKeyword_add_cex :
    (handleAddRemove true "" [""] ⟨[], [], []⟩).keywords.reddit = [""] := by decide

/-- C9 (amended): keyword arguments undergo no trimming or emptiness
validation — any argument string, the empty string included, is added
verbatim, and after an add command the keyword is present in at least one
source's set. -/
theorem add_inserts_verbatim (sourceMatch kw : String) (k : Keywords) :
    kw ∈ (handleAddRemove true sourceMatch [kw] k).keywords.reddit ∨
    kw ∈ (handleAddRemove true sourceMatch [kw] k).keywords.hn ∨
    kw ∈ (handleAddRemove true sourceMatch [kw] k).keywords.ddg := by
  obtain ⟨kr, kh, kd⟩ := k
  unfold handleAddRemove
  by_cases hs : sources.contains sourceMatch
  · have hmem : sourceMatch ∈ sources := by simpa using hs
    simp only [sources, List.mem_cons, List.mem_singleton, List.not_mem_nil, or_false] at hmem
    rcases hmem with rfl | rfl | rfl <;>
      simp [hs, sources, applyKw, mem_setAdd]
  · simp_all [sources, applyKw, mem_setAdd]

end Socials
